import Mathlib

/-!
Shallow embedding of the kites extension-lifecycle orchestrator:
the `ExtensionsManager` (`use`, `useOne`, `useMany`, `init`) and the
`KitesInstance` engine (`src/packages/core/src/engine/kites.ts`:
`init`, `set`, `defaultOption`, `_loadConfig`, `use`).

Modelling conventions:
- JavaScript objects are association lists of own string keys; property
  read is first-match lookup (keys of a real JS object are unique).
- `undefined` for an absent property is `Option.none` at read sites.
- Promise-based control flow is embedded as a deterministic microtask
  trace: the source code builds, for every extension, a fixed chain of
  `then`/`catch` reactions and runs the chains under `Promise.all`, so
  the global event order is determined by the FIFO microtask queue —
  including the two-tick thenable-adoption delay paid whenever a `then`
  callback returns a promise — and can be computed as a function of the
  extension list (see `useManyTrace` and `useManyResult`).
- Entry points are modelled by their synchronous outcome only, because
  the source discards the value returned by `extension.main.call(...)`:
  any promise an entry point returns is never awaited by the manager.
-/

/-- JavaScript runtime values, as far as the orchestrator inspects them:
booleans, numbers, strings, undefined, null, arrays and plain objects
(association lists of own enumerable string keys). -/
inductive JsValue where
  | vbool : Bool → JsValue
  | vnum : Int → JsValue
  | vstr : String → JsValue
  | vundefined : JsValue
  | vnull : JsValue
  | varr : List JsValue → JsValue
  | vobj : List (String × JsValue) → JsValue
deriving Repr

/-- A JavaScript object: own enumerable string keys with values.
Property read takes the first matching key. -/
abbrev JsObject := List (String × JsValue)

namespace JsObject

/-- Property read `o[k]`: first matching key; `none` models reading an
absent key (which yields `undefined` in JS). -/
def get (o : JsObject) (k : String) : Option JsValue :=
  (o.find? (fun p => p.1 == k)).map (·.2)

/-- Property write `o[k] = v`: replaces the value of an existing key in
place, otherwise appends the new key (JS insertion order). -/
def set (o : JsObject) (k : String) (v : JsValue) : JsObject :=
  match o with
  | [] => [(k, v)]
  | (k', v') :: rest =>
    if k' == k then (k', v) :: rest else (k', v') :: set rest k v

end JsObject

/-- Shallow merge `_.assign({}, a, b)`: own keys of `b` overwrite keys of
`a`. Because `JsObject.get` reads the first matching key, putting the
keys of `b` in front gives them precedence. -/
def lodashAssign (a b : JsObject) : JsObject := b ++ a

/-- JavaScript truthiness of a value. -/
def jsTruthy : JsValue → Bool
  | .vbool b => b
  | .vnum n => n != 0
  | .vstr s => s != ""
  | .vundefined => false
  | .vnull => false
  | .varr _ => true
  | .vobj _ => true

/-- Truthiness of a property read (`undefined` when absent is falsy). -/
def jsTruthyOpt : Option JsValue → Bool
  | some v => jsTruthy v
  | none => false

/-- The strict comparison `x === false` on a property read. -/
def isStrictFalse : Option JsValue → Bool
  | some (.vbool false) => true
  | _ => false

/-- Character-list worker for `jsSplit`: splitting an empty text yields
one empty field; a separator character opens a new field; any other
character is prepended to the current first field. -/
def jsSplitList (sep : Char) : List Char → List (List Char)
  | [] => [[]]
  | c :: rest =>
    let r := jsSplitList sep rest
    if c == sep then [] :: r
    else
      match r with
      | h :: t => (c :: h) :: t
      | [] => [[c]]

/-- JS `String.prototype.split` with a single-character separator, as
used by `set(option, value)`: `'a:b:c'.split(':') = ['a','b','c']` and
`''.split(':') = ['']`. -/
def jsSplit (sep : Char) (s : String) : List String :=
  (jsSplitList sep s.toList).map (fun cs => String.mk cs)

/-- JS `String.prototype.toLowerCase` restricted to the character-wise
lowering that extension names use. -/
def jsToLower (s : String) : String := String.mk (s.toList.map Char.toLower)

/-- Reason a promise in the activation chain rejects:
an `Error` object carrying a `.stack` text, or a plain non-`Error` value
(the `Promise.reject('Invalid kites extension: ...')` case), whose
`.stack` read yields `undefined`. -/
inductive JsRejection where
  | err : String → JsRejection
  | raw : String → JsRejection
deriving Repr, DecidableEq

/-- Text produced by interpolating `e.stack` into a template string. -/
def stackText : JsRejection → String
  | .err s => s
  | .raw _ => "undefined"

/-- Observable behaviour of calling an entry-point function with
`(kites, extension)`: it either returns normally or throws an `Error`
(carrying its stack text). The manager discards the returned value, so
any promise the entry point returns is never awaited and does not
appear here. -/
abbrev MainBehavior := Except JsRejection Unit

/-- Shape of the descriptor's `main` property as inspected by `useOne`:
a function, a string path (resolved relative to `directory` and then
called), or anything else. -/
inductive MainField where
  | fn : MainBehavior → MainField
  | modulePath : String → MainBehavior → MainField
  | noMain : MainField
deriving Repr

/-- An extension descriptor (`KitesExtension`). `name = ""` models an
absent or empty (falsy) name; `directory = none` models an absent
directory. The `init` field is the descriptor's fallback entry point. -/
structure KitesExtension where
  name : String
  dependencies : List String
  directory : Option String
  main : MainField
  init : Option MainBehavior
  options : JsObject
deriving Repr

namespace ExtensionsManager

/-- Options merge at the top of `useOne`:
`_.assign({}, extension.options, this.kites.options[extension.name && extension.name.toLowerCase()])`.
A namespace that is absent or not an object contributes no keys
(`_.assign` ignores `undefined` sources; non-object namespaces do not
occur for the orchestrator's configuration). -/
def mergedOptions (kitesOptions : JsObject) (e : KitesExtension) : JsObject :=
  let nsKey := if e.name == "" then "" else jsToLower e.name
  match kitesOptions.get nsKey with
  | some (.vobj ns) => lodashAssign e.options ns
  | _ => lodashAssign e.options []

/-- Fallback branch of the entry-point dispatch in `useOne`: if
`extension.init` is a function it is called, otherwise the chain
rejects with the plain string `'Invalid kites extension: ' + name`.
The Bool records whether a callable was invoked. -/
def dispatchFallback (e : KitesExtension) : Bool × Except JsRejection Unit :=
  match e.init with
  | some b => (true, b)
  | none => (false, .error (.raw ("Invalid kites extension: " ++ e.name)))

/-- The first chain link of `useOne`: dispatch on the shape of
`extension.main`. A function is called; a string path is resolved and
called only when `extension.directory` is truthy (an empty string is
falsy); otherwise control falls through to the `init` check. -/
def dispatchEntryPoint (e : KitesExtension) : Bool × Except JsRejection Unit :=
  match e.main with
  | .fn b => (true, b)
  | .modulePath _ b =>
    match e.directory with
    | some d => if d == "" then dispatchFallback e else (true, b)
    | none => dispatchFallback e
  | .noMain => dispatchFallback e

/-- Diagnostic built in the `catch` of `useOne`; the chain then rejects
with `new Error(errorMsg)`. `os.EOL` is `"\n"`. -/
def loadErrorMsg (e : KitesExtension) (r : JsRejection) : String :=
  if e.name == "" then
    "Error when loading anonymous extension " ++
      (match e.directory with | some d => " at " ++ d | none => "") ++
      "\n" ++ stackText r
  else
    "Error when loading extension " ++ e.name ++ "\n" ++ stackText r

/-- Final status of one `useOne` promise chain. A failing chain keeps
the original rejection reason alongside the wrapped `errorMsg`, because
the reason's kind fixes the chain's microtask schedule: a synchronous
throw (`JsRejection.err`) rejects the first link's promise directly,
while the invalid-shape branch returns `Promise.reject(...)`
(`JsRejection.raw`), which is adopted as a thenable and settles two
ticks later. -/
inductive ChainStatus where
  | skipped : ChainStatus
  | ok : ChainStatus
  | failed : JsRejection → String → ChainStatus
deriving Repr, DecidableEq

/-- What one call to `useOne` does: the descriptor after
`extension.options = options`, whether an entry-point callable was
invoked, and how its promise chain settles. -/
structure ActivationRecord where
  merged : KitesExtension
  invoked : Bool
  status : ChainStatus

/-- One `useOne` call. Synchronously: merge options and assign them back
onto the descriptor; if the merged options set `enabled === false`, log
a debug message and return an already-resolved promise. Otherwise build
the chain `Promise.resolve().then(dispatch).then(emit).catch(wrap)`. -/
def activateOne (kitesOptions : JsObject) (e : KitesExtension) : ActivationRecord :=
  let opts := mergedOptions kitesOptions e
  let e' := { e with options := opts }
  if isStrictFalse (opts.get "enabled") then
    { merged := e', invoked := false, status := .skipped }
  else
    match dispatchEntryPoint e' with
    | (inv, .ok _) => { merged := e', invoked := inv, status := .ok }
    | (inv, .error r) => { merged := e', invoked := inv, status := .failed r (loadErrorMsg e' r) }

/-- Observable events of the manager during `useMany`. -/
inductive KEvent where
  | debug : String → KEvent
  | invokeMain : String → KEvent
  | registered : String → KEvent
  | errorLog : String → KEvent
deriving Repr, DecidableEq

/-- Debug log emitted synchronously by `useOne` for a disabled extension. -/
def skipEvents (r : ActivationRecord) : List KEvent :=
  match r.status with
  | .skipped => [.debug ("Extension " ++ r.merged.name ++ " is disabled, skipping")]
  | _ => []

/-- Event trace of `useMany(extensions)` = `Promise.all(extensions.map(e => this.useOne(e)))`.
The `map` runs every `useOne` synchronously in list order, so all option
merges and disabled-skip logs happen first (tick 0). Each non-skipped
chain `Promise.resolve().then(dispatch).then(emit).catch(wrap)` then
occupies one microtask per tick, and reactions scheduled for the same
tick run in list order (FIFO queue). Counting ticks: every dispatch
runs at tick 1; a synchronously throwing dispatch rejects its link
directly, so its `catch` (error log) runs at tick 3; a successful
dispatch returns `Promise.resolve()`, whose thenable adoption costs two
extra ticks, so its `extension:registered` emission runs at tick 4; the
invalid-shape branch returns `Promise.reject(...)`, likewise adopted,
so its error log runs only at tick 5. Ordering events by (tick, list
position) yields the five phases below. -/
def useManyTrace (kitesOptions : JsObject) (exts : List KitesExtension) : List KEvent :=
  let recs := exts.map (activateOne kitesOptions)
  (recs.map skipEvents).flatten
  ++ recs.filterMap (fun r => if r.invoked then some (.invokeMain r.merged.name) else none)
  ++ recs.filterMap (fun r => match r.status with
      | .failed (.err _) m => some (.errorLog m)
      | _ => none)
  ++ recs.filterMap (fun r => match r.status with
      | .ok => some (.registered r.merged.name)
      | _ => none)
  ++ recs.filterMap (fun r => match r.status with
      | .failed (.raw _) m => some (.errorLog m)
      | _ => none)

/-- How the promise returned by `useMany` settles: `Promise.all`
rejects with the first rejection in settlement time, not in list order.
A synchronously throwing chain rejects at tick 3 while an invalid-shape
chain rejects only at tick 5 (thenable adoption of its
`Promise.reject`), so the earliest rejection is the first synchronously
throwing chain in list order and, only when no chain throws
synchronously, the first invalid-shape chain; with no rejection at all
the promise resolves. The error text is the `errorMsg` wrapped in
`new Error(...)` by the rejecting chain's `catch`. -/
def useManyResult (kitesOptions : JsObject) (exts : List KitesExtension) : Except String Unit :=
  match (exts.map (activateOne kitesOptions)).findSome?
      (fun r => match r.status with
        | .failed (.err _) m => some m
        | _ => none) with
  | some m => .error m
  | none =>
    match (exts.map (activateOne kitesOptions)).findSome?
        (fun r => match r.status with
          | .failed (.raw _) m => some m
          | _ => none) with
    | some m => .error m
    | none => .ok ()

end ExtensionsManager

/-- Argument accepted by the registration call `use`: either a bare
activation function (carrying its JS `name` property, `""` when the
function is anonymous, and its behaviour) or a full descriptor. -/
inductive UseArgument where
  | fnArg : String → MainBehavior → UseArgument
  | descriptor : KitesExtension → UseArgument

/-- State of the `ExtensionsManager`: the candidates assembled by
`init` and the extensions registered explicitly through `use`. -/
structure ExtensionsManager where
  availableExtensions : List KitesExtension
  usedExtensions : List KitesExtension

namespace ExtensionsManager

/-- The descriptor `use` builds around a bare activation function:
no dependencies, `directory` from `this.kites.options.parentModuleDirectory`,
the function itself as `main`, and `extension.name || '<no-name>'` as
name. The object literal has no `init` and no `options` properties. -/
def wrapFunction (kitesOptions : JsObject) (fnName : String) (b : MainBehavior) :
    KitesExtension :=
  { name := if fnName == "" then "<no-name>" else fnName
    dependencies := []
    directory :=
      match kitesOptions.get "parentModuleDirectory" with
      | some (.vstr s) => some s
      | _ => none
    main := .fn b
    init := none
    options := [] }

/-- `ExtensionsManager.use`: a bare function is wrapped into a
descriptor, a full descriptor is taken as is; either way the call only
appends to `usedExtensions` and performs no activation. -/
def use (kitesOptions : JsObject) (m : ExtensionsManager) (a : UseArgument) :
    ExtensionsManager :=
  match a with
  | .fnArg n b => { m with usedExtensions := m.usedExtensions ++ [wrapFunction kitesOptions n b] }
  | .descriptor e => { m with usedExtensions := m.usedExtensions ++ [e] }

/-- The autodiscovery flag resolved at the top of `ExtensionsManager.init`,
which normalizes `options.discover` into a `[flag, depth, ...roots]`
array and shifts the flag off: the literal string `'undefined'` becomes
`[false, 0]`, a boolean is kept as the flag, any other string is a
discovery path and means `true`, and an already-array value yields its
first element. The engine constructor always seeds `discover`, so other
shapes do not occur and are read as disabled. -/
def readAutodiscover (kitesOptions : JsObject) : Bool :=
  match kitesOptions.get "discover" with
  | some (.vstr "undefined") => false
  | some (.vbool b) => b
  | some (.vstr _) => true
  | some (.varr (f :: _)) => jsTruthy f
  | _ => false

/-- The membership test `allowedExtensions.indexOf(e.name) > -1`
(`Array.prototype.indexOf` compares with strict equality, so only
string elements can match a string name). -/
def jsIndexOfStr (xs : List JsValue) (s : String) : Bool :=
  xs.any (fun v => match v with | .vstr t => t == s | _ => false)

/-- Outcome of `ExtensionsManager.init`: the final candidate list
stored in `this.availableExtensions` (whose descriptors `useMany`
additionally updates in place with their merged options), the event
trace, and how the returned promise settles. -/
structure InitOutcome where
  availableExtensions : List KitesExtension
  trace : List KEvent
  result : Except String Unit

/-- `ExtensionsManager.init`: resolve the discovery flag, concatenate
discovered and explicitly used extensions, filter by the allow-list
`options.extensions` when that option is truthy (an array is always
truthy, even empty; dropped candidates are not reported), sort, and run
`useMany` over the result. The Discovery Scanner (`./discover`) and the
Dependency Sorter comparator (`./sorter`) are modules outside the
sources, so the discovered set and the sorting pass are parameters. -/
def init (sortFn : List KitesExtension → List KitesExtension)
    (discovered : List KitesExtension) (kitesOptions : JsObject)
    (m : ExtensionsManager) : InitOutcome :=
  let autodiscover := readAutodiscover kitesOptions
  let discoveryEvents : List KEvent :=
    if autodiscover then
      [.debug ("Discovered " ++ toString discovered.length ++ " extensions")]
    else
      [.debug "Autodiscover is not enabled!"]
  let candidates := (if autodiscover then discovered else []) ++ m.usedExtensions
  let retained :=
    match kitesOptions.get "extensions" with
    | some (.varr allowed) => candidates.filter (fun e => jsIndexOfStr allowed e.name)
    | _ => candidates
  let sorted := sortFn retained
  { availableExtensions := sorted
    trace := discoveryEvents ++ useManyTrace kitesOptions sorted
    result := useManyResult kitesOptions sorted }

end ExtensionsManager

/-- State of a `KitesInstance` as far as the lifecycle sequence reads
and writes it: the runtime configuration, the extensions manager, the
deferred initializers registered on `initializeListeners` (kept by the
identifiers of the registered callbacks), and the `initialized` flag
behind the `isInitialized` getter. -/
structure KitesState where
  options : JsObject
  extensionsManager : ExtensionsManager
  initializeListeners : List String
  initialized : Bool

namespace KitesInstance

/-- `KitesInstance.use`: forwards to the manager's `use` (the instance
also returns itself for chaining, which needs no modelling). -/
def use (st : KitesState) (a : UseArgument) : KitesState :=
  { st with extensionsManager := ExtensionsManager.use st.options st.extensionsManager a }

/-- `KitesInstance.set(option, value)`: a two-token key such as
`'express:static'` writes into the nested namespace object, a one-token
key writes at top level, and any other token count falls through both
branches. Writing through a missing, `undefined` or `null` namespace is
a `TypeError` (`none`); a primitive namespace silently swallows the
write. -/
def set (options : JsObject) (option : String) (value : String) : Option JsObject :=
  match jsSplit ':' option with
  | [t0, t1] =>
    match options.get t0 with
    | some (.vobj inner) => some (JsObject.set options t0 (.vobj (JsObject.set inner t1 (.vstr value))))
    | some .vundefined | none => none
    | some .vnull => none
    | some _ => some options
  | [t0] => some (JsObject.set options t0 (.vstr value))
  | _ => some options

/-- `KitesInstance.defaultOption(option, defaultValue)`:
`this.options[option] || defaultValue`. -/
def defaultOption (options : JsObject) (option : String) (defaultValue : JsValue) : JsValue :=
  match options.get option with
  | some v => if jsTruthy v then v else defaultValue
  | none => defaultValue

/-- The `configFileName` getter: chooses the per-environment file name
by strict string comparison on `options.env`. -/
def configFileName (options : JsObject) : String :=
  match options.get "env" with
  | some (.vstr "production") => "prod.config.json"
  | some (.vstr "test") => "test.config.json"
  | _ => "dev.config.json"

/-- The `appDirectory` getter: `this.options.appDirectory || appRoot`
(the app-root default is a parameter; non-string app directories do not
occur). -/
def appDirectory (defaultAppDirectory : String) (options : JsObject) : String :=
  match options.get "appDirectory" with
  | some (.vstr s) => if s == "" then defaultAppDirectory else s
  | _ => defaultAppDirectory

/-- POSIX `path.isAbsolute`. -/
def pathIsAbsolute (p : String) : Bool := p.startsWith "/"

/-- POSIX `path.join` of two segments, as used by `_loadConfig`. -/
def pathJoin (a b : String) : String := a ++ "/" ++ b

/-- The `_loadConfig` step. The `nconf` argv/env/file overlay is an
external collaborator seeded with `.defaults(this.options)`; the model
keeps the option map together with the `configFile` bookkeeping writes
and leaves the overlay at the boundary. Modelled exactly are the
branches on `options.configFile` and the `fs.existsSync` checks,
including the fatal `Config file ... was not found.` error thrown when
an explicitly referenced file is missing. -/
def loadConfig (fsExists : String → Bool) (defaultAppDirectory : String)
    (options : JsObject) : Except String JsObject :=
  let appDir := appDirectory defaultAppDirectory options
  if jsTruthyOpt (options.get "configFile") then
    match options.get "configFile" with
    | some (.vstr f) =>
      let configFilePath := if pathIsAbsolute f then f else pathJoin appDir f
      if fsExists configFilePath then .ok options
      else .error ("Config file " ++ f ++ " was not found.")
    | _ => .ok options
  else
    let f := configFileName options
    if fsExists (pathJoin appDir f) then
      .ok (JsObject.set options "configFile" (.vstr f))
    else if fsExists (pathJoin appDir "kites.config.json") then
      .ok (JsObject.set options "configFile" (.vstr "kites.config.json"))
    else
      .ok (JsObject.set options "configFile" (.vstr f))

/-- Observable events of the `KitesInstance.init` sequence. -/
inductive InitEvent where
  | afterConfigLoaded : InitEvent
  | logInfo : String → InitEvent
  | extEvent : ExtensionsManager.KEvent → InitEvent
  | listenerFired : String → InitEvent
  | emitInitialized : Bool → InitEvent
deriving Repr, DecidableEq

/-- Modelled from the spec: `EventCollectionEmitter.fire` (the
`event-collection` module is not among the sources) runs the deferred
initializers strictly in registration order, awaiting each; the model
records one event per registered initializer, in order. -/
def fireListeners (listeners : List String) : List InitEvent :=
  listeners.map InitEvent.listenerFired

/-- `KitesInstance.init`: run `_initOptions` (configuration-file loading
plus the `afterConfigLoaded` callback when `loadConfig` is truthy — a
load failure rejects the whole call before anything else happens), log
the startup line, run `extensionsManager.init()` and propagate its
rejection, fire the deferred initializers, log readiness, emit the
`initialized` notification — the event records the `initialized` flag
as it is at emission time — and only then set `initialized = true`. -/
def init (sortFn : List KitesExtension → List KitesExtension)
    (discovered : List KitesExtension) (fsExists : String → Bool)
    (defaultAppDirectory : String) (st : KitesState) :
    List InitEvent × Except String KitesState :=
  let loadCfg := jsTruthyOpt (st.options.get "loadConfig")
  match (if loadCfg then loadConfig fsExists defaultAppDirectory st.options
         else .ok st.options) with
  | .error msg => ([], .error msg)
  | .ok opts1 =>
    let ev0 : List InitEvent :=
      (if loadCfg then [.afterConfigLoaded] else []) ++ [.logInfo "Initializing"]
    let mi := ExtensionsManager.init sortFn discovered opts1 st.extensionsManager
    let evExt := mi.trace.map InitEvent.extEvent
    match mi.result with
    | .error msg => (ev0 ++ evExt, .error msg)
    | .ok _ =>
      let evL := fireListeners st.initializeListeners
      (ev0 ++ evExt ++ evL ++ [.logInfo "kites initialized!", .emitInitialized st.initialized],
       .ok { st with
             options := opts1
             extensionsManager := { st.extensionsManager with
                                    availableExtensions := mi.availableExtensions }
             initialized := true })

end KitesInstance

namespace ExtensionsManager

/-- Name carried by an `invokeMain` event, `none` for other events. -/
def invokeName? : KEvent → Option String
  | .invokeMain n => some n
  | _ => none

/-- Whether a chain ended in the `catch` with a wrapped error. -/
def isFailed (r : ActivationRecord) : Bool :=
  match r.status with
  | .failed _ _ => true
  | _ => false

/-- Whether a chain's rejection came from a synchronous throw of the
entry point; these chains settle earliest (tick 3) among failures. -/
def isSyncThrow (r : ActivationRecord) : Bool :=
  match r.status with
  | .failed (.err _) _ => true
  | _ => false

/-- The trace event whose occurrence marks the settlement of a chain:
the `extension:registered` emission of a successful chain, the error
log of a failing one. A disabled extension's chain settles already
during the synchronous `useOne` call and leaves no such marker. -/
def settleEvent? (r : ActivationRecord) : Option KEvent :=
  match r.status with
  | .skipped => none
  | .ok => some (.registered r.merged.name)
  | .failed _ m => some (.errorLog m)

/-- Statement of claim C1 over the model: activation is strictly
sequential — the entry point of the descriptor at position `n + 1` is
not invoked until the activation of the descriptor at position `n` has
settled (its `useOne` promise resolved or rejected). -/
def StrictlySequential (cfg : JsObject) (exts : List KitesExtension) : Prop :=
  ∀ (n i : Nat) (hn : n + 1 < exts.length),
    (useManyTrace cfg exts).get? i =
      some (.invokeMain ((activateOne cfg (exts.get ⟨n + 1, hn⟩)).merged.name)) →
    ((activateOne cfg (exts.get ⟨n, Nat.lt_of_succ_lt hn⟩)).status = .skipped ∨
     ∃ j, j < i ∧ (useManyTrace cfg exts).get? j =
        settleEvent? (activateOne cfg (exts.get ⟨n, Nat.lt_of_succ_lt hn⟩)))

/-- Statement of claim C2 over the model: if the extension at position
`n` fails, then no later extension's entry point is ever invoked, and
the promise returned by `useMany` rejects with an error whose message
contains the failing extension's name. -/
def FailFast (cfg : JsObject) (exts : List KitesExtension) : Prop :=
  ∀ (n m : Nat) (hn : n < exts.length) (hm : m < exts.length), n < m →
    isFailed (activateOne cfg (exts.get ⟨n, hn⟩)) = true →
    (KEvent.invokeMain (exts.get ⟨m, hm⟩).name ∉ useManyTrace cfg exts) ∧
    ∃ msg, useManyResult cfg exts = .error msg ∧
      ∃ pre post, msg = pre ++ (exts.get ⟨n, hn⟩).name ++ post

/-- Statement of claim C3 over the model: an extension whose merged
options set `enabled === false` is skipped without error (no entry
point invoked, no failure) and an `extension:registered` notification
is still emitted for the intentional skip. -/
def DisabledSkipClaim (cfg : JsObject) (e : KitesExtension) : Prop :=
  isStrictFalse ((mergedOptions cfg e).get "enabled") = true →
    (activateOne cfg e).invoked = false ∧
    useManyResult cfg [e] = .ok () ∧
    KEvent.registered e.name ∈ useManyTrace cfg [e]

end ExtensionsManager

/-- Statement of claim C6 over the model: in every `KitesInstance.init`
run, the `initialized` notification is emitted with the lifecycle flag
already true, and only after every extension event and every deferred
initializer. -/
def InitializedNotificationClaim
    (sortFn : List KitesExtension → List KitesExtension)
    (discovered : List KitesExtension) (fsExists : String → Bool)
    (defaultAppDirectory : String) (st : KitesState) : Prop :=
  let tr := (KitesInstance.init sortFn discovered fsExists defaultAppDirectory st).1
  (∀ b, KitesInstance.InitEvent.emitInitialized b ∈ tr → b = true) ∧
  (∀ i j b, tr.get? i = some (.emitInitialized b) →
    ((∃ ev, tr.get? j = some (.extEvent ev)) ∨
     (∃ s, tr.get? j = some (.listenerFired s))) →
    j < i)

/-- Minimal enabled extension named `A` with a succeeding function entry
point: a concrete input for the temporal claims. -/
def extOkA : KitesExtension :=
  { name := "A", dependencies := [], directory := none,
    main := .fn (.ok ()), init := none, options := [] }

/-- Minimal enabled extension named `B` with a succeeding function entry
point. -/
def extOkB : KitesExtension :=
  { name := "B", dependencies := [], directory := none,
    main := .fn (.ok ()), init := none, options := [] }

/-- Extension named `B` whose entry point throws synchronously. -/
def extThrowB : KitesExtension :=
  { name := "B", dependencies := [], directory := none,
    main := .fn (.error (.err "boom")), init := none, options := [] }

/-- Minimal enabled extension named `C` with a succeeding function entry
point. -/
def extOkC : KitesExtension :=
  { name := "C", dependencies := [], directory := none,
    main := .fn (.ok ()), init := none, options := [] }

/-- Extension named `D` whose own default options disable it. -/
def extDisabledD : KitesExtension :=
  { name := "D", dependencies := [], directory := none,
    main := .fn (.ok ()), init := none, options := [("enabled", .vbool false)] }

/-- A fresh `KitesInstance` state with empty configuration and no
registered extensions or deferred initializers. -/
def freshKitesState : KitesState :=
  { options := [], extensionsManager := ⟨[], []⟩,
    initializeListeners := [], initialized := false }

/-- Property read distributes over object concatenation: the left part
wins (first-match lookup). -/
theorem jsGet_append (a b : JsObject) (k : String) :
    JsObject.get (a ++ b) k = (JsObject.get a k).or (JsObject.get b k) := by
  unfold JsObject.get
  rw [List.find?_append]
  cases List.find? (fun p => p.1 == k) a <;> simp [Option.or]

/-- C10: `defaultOption` returns the supplied default whenever the
stored option value is falsy (false, 0, empty string, null, undefined),
not only when the option is absent; in particular a stored boolean
`false` is replaced by the default. -/
theorem defaultOption_default_on_falsy
    (options : JsObject) (option : String) (dflt : JsValue) :
    ((JsObject.get options option).isNone →
      KitesInstance.defaultOption options option dflt = dflt) ∧
    (∀ v, JsObject.get options option = some v → jsTruthy v = false →
      KitesInstance.defaultOption options option dflt = dflt) := by
  constructor
  · intro h
    unfold KitesInstance.defaultOption
    cases hg : JsObject.get options option
    · rfl
    · rw [hg] at h; simp at h
  · intro v hv hf
    unfold KitesInstance.defaultOption
    rw [hv]
    simp [hf]

/-- C10 witness: a stored boolean `false` is replaced by the default. -/
theorem defaultOption_default_on_falsy_witness :
    KitesInstance.defaultOption [("watch", .vbool false)] "watch" (.vbool true) =
      .vbool true :=
  (defaultOption_default_on_falsy [("watch", .vbool false)] "watch" (.vbool true)).2
    (.vbool false) rfl rfl

/-- C9: `set(option, value)` leaves the options mapping unchanged when
the colon-split token count of the key is neither 1 nor 2. -/
theorem set_noop_on_other_token_counts
    (options : JsObject) (option value : String)
    (h1 : (jsSplit ':' option).length ≠ 1)
    (h2 : (jsSplit ':' option).length ≠ 2) :
    KitesInstance.set options option value = some options := by
  unfold KitesInstance.set
  split
  · next t0 t1 heq => exact absurd (by rw [heq]; rfl) h2
  · next t0 heq => exact absurd (by rw [heq]; rfl) h1
  · rfl

/-- C9 witness: a three-segment key is a silent no-op. -/
theorem set_noop_on_other_token_counts_witness :
    KitesInstance.set [("x", .vnum 1)] "a:b:c" "v" = some [("x", .vnum 1)] :=
  set_noop_on_other_token_counts [("x", .vnum 1)] "a:b:c" "v"
    (by decide) (by decide)

/-- C4: the options merge before activation is a shallow merge of the
extension's own default options with the runtime-configuration
namespace keyed by the lower-cased extension name, where runtime values
take precedence: a key present in the namespace gets the namespace
value, a key absent from it keeps its default. -/
theorem mergedOptions_shallow_merge
    (kitesOptions : JsObject) (e : KitesExtension) (ns : JsObject) (k : String)
    (hname : e.name ≠ "")
    (hns : JsObject.get kitesOptions (jsToLower e.name) = some (.vobj ns)) :
    (∀ v, JsObject.get ns k = some v →
      JsObject.get (ExtensionsManager.mergedOptions kitesOptions e) k = some v) ∧
    (JsObject.get ns k = none →
      JsObject.get (ExtensionsManager.mergedOptions kitesOptions e) k =
        JsObject.get e.options k) := by
  have hbeq : (e.name == "") = false := by
    simp only [beq_eq_false_iff_ne, ne_eq]
    exact hname
  unfold ExtensionsManager.mergedOptions
  simp only [hbeq, Bool.false_eq_true, if_false]
  rw [hns]
  unfold lodashAssign
  constructor
  · intro v hv
    rw [jsGet_append, hv]
    rfl
  · intro hnone
    rw [jsGet_append, hnone]
    rfl

/-- C4 witness: with defaults `{port: 3000, host: "local"}` and runtime
namespace `{port: 8080}` for extension `MyExt`, the merged options give
the runtime value for `port` and keep the default for `host`. -/
theorem mergedOptions_shallow_merge_witness :
    JsObject.get
      (ExtensionsManager.mergedOptions [("myext", .vobj [("port", .vnum 8080)])]
        { name := "MyExt", dependencies := [], directory := none,
          main := .fn (.ok ()), init := none,
          options := [("port", .vnum 3000), ("host", .vstr "local")] })
      "port" = some (.vnum 8080) ∧
    JsObject.get
      (ExtensionsManager.mergedOptions [("myext", .vobj [("port", .vnum 8080)])]
        { name := "MyExt", dependencies := [], directory := none,
          main := .fn (.ok ()), init := none,
          options := [("port", .vnum 3000), ("host", .vstr "local")] })
      "host" = JsObject.get [("port", .vnum 3000), ("host", .vstr "local")] "host" :=
  ⟨(mergedOptions_shallow_merge [("myext", .vobj [("port", .vnum 8080)])]
      { name := "MyExt", dependencies := [], directory := none,
        main := .fn (.ok ()), init := none,
        options := [("port", .vnum 3000), ("host", .vstr "local")] }
      [("port", .vnum 8080)] "port" (by decide) rfl).1 (.vnum 8080) rfl,
   (mergedOptions_shallow_merge [("myext", .vobj [("port", .vnum 8080)])]
      { name := "MyExt", dependencies := [], directory := none,
        main := .fn (.ok ()), init := none,
        options := [("port", .vnum 3000), ("host", .vstr "local")] }
      [("port", .vnum 8080)] "host" (by decide) rfl).2 rfl⟩

/-- C7: `use` wraps a bare activation function into a descriptor with
an empty dependency list, the function's own name (or the `<no-name>`
placeholder when the function is unnamed) and the caller's
parent-module directory, and the call only appends that descriptor to
the used-extensions list. -/
theorem use_wraps_bare_function
    (kitesOptions : JsObject) (m : ExtensionsManager) (fnName : String)
    (b : MainBehavior) (dir : String)
    (hdir : JsObject.get kitesOptions "parentModuleDirectory" = some (.vstr dir)) :
    ExtensionsManager.use kitesOptions m (.fnArg fnName b) =
      { m with usedExtensions := m.usedExtensions ++
        [{ name := if fnName == "" then "<no-name>" else fnName
           dependencies := []
           directory := some dir
           main := .fn b
           init := none
           options := [] }] } := by
  unfold ExtensionsManager.use ExtensionsManager.wrapFunction
  rw [hdir]

/-- C7 witness: registering an anonymous function only appends the
wrapped `<no-name>` descriptor to the used-extensions list. -/
theorem use_wraps_bare_function_witness :
    ExtensionsManager.use [("parentModuleDirectory", .vstr "/app/src")]
      ⟨[], []⟩ (.fnArg "" (.ok ())) =
      { availableExtensions := ([] : List KitesExtension)
        usedExtensions := [{ name := "<no-name>"
                             dependencies := []
                             directory := some "/app/src"
                             main := .fn (.ok ())
                             init := none
                             options := [] }] } := by
  rw [use_wraps_bare_function [("parentModuleDirectory", .vstr "/app/src")]
    ⟨[], []⟩ "" (.ok ()) "/app/src" rfl]
  rfl

/-- The `_loadConfig` branch for an explicitly referenced but missing
configuration file: the call throws the `Config file ... was not found.`
error. -/
theorem loadConfig_missing_file
    (fsExists : String → Bool) (defaultAppDirectory : String)
    (options : JsObject) (f : String)
    (hfile : JsObject.get options "configFile" = some (.vstr f))
    (hne : f ≠ "")
    (hmissing : fsExists (if KitesInstance.pathIsAbsolute f then f
        else KitesInstance.pathJoin
          (KitesInstance.appDirectory defaultAppDirectory options) f) = false) :
    KitesInstance.loadConfig fsExists defaultAppDirectory options =
      .error ("Config file " ++ f ++ " was not found.") := by
  unfold KitesInstance.loadConfig
  have hct : jsTruthyOpt (JsObject.get options "configFile") = true := by
    rw [hfile]
    simpa [jsTruthyOpt, jsTruthy] using hne
  rw [hct]
  simp only [if_true, hfile, hmissing]
  rfl

/-- C8: when the runtime options explicitly reference a configuration
file that does not exist, `init` rejects with an error naming that file
and produces no events at all — in particular no extension entry point
is invoked. -/
theorem init_rejects_on_missing_config_file
    (sortFn : List KitesExtension → List KitesExtension)
    (discovered : List KitesExtension) (fsExists : String → Bool)
    (defaultAppDirectory : String) (st : KitesState) (f : String)
    (hload : jsTruthyOpt (JsObject.get st.options "loadConfig") = true)
    (hfile : JsObject.get st.options "configFile" = some (.vstr f))
    (hne : f ≠ "")
    (hmissing : fsExists (if KitesInstance.pathIsAbsolute f then f
        else KitesInstance.pathJoin
          (KitesInstance.appDirectory defaultAppDirectory st.options) f) = false) :
    KitesInstance.init sortFn discovered fsExists defaultAppDirectory st =
      ([], .error ("Config file " ++ f ++ " was not found.")) := by
  unfold KitesInstance.init
  rw [hload]
  rw [loadConfig_missing_file fsExists defaultAppDirectory st.options f hfile hne hmissing]
  rfl

/-- C8 witness: with `loadConfig` enabled, `configFile = "app.json"`
and a filesystem on which nothing exists, `init` rejects with the
config-file error and an empty event trace. -/
theorem init_rejects_on_missing_config_file_witness :
    KitesInstance.init id [] (fun _ => false) "/approot"
      { options := [("loadConfig", .vbool true), ("configFile", .vstr "app.json")]
        extensionsManager := ⟨[], [extOkA]⟩
        initializeListeners := []
        initialized := false } =
      ([], .error ("Config file " ++ "app.json" ++ " was not found.")) :=
  init_rejects_on_missing_config_file id [] (fun _ => false) "/approot"
    { options := [("loadConfig", .vbool true), ("configFile", .vstr "app.json")]
      extensionsManager := ⟨[], [extOkA]⟩
      initializeListeners := []
      initialized := false }
    "app.json" rfl rfl (by decide) rfl

/-- Activation does not change a descriptor's name: the merged
descriptor differs only in its options. -/
theorem activateOne_merged_name (cfg : JsObject) (e : KitesExtension) :
    (ExtensionsManager.activateOne cfg e).merged.name = e.name := by
  unfold ExtensionsManager.activateOne
  dsimp only
  split
  · rfl
  · split <;> rfl

/-- Every entry-point invocation event in a `useMany` trace carries the
name of an extension of the processed list. -/
theorem invokeMain_name_of_mem_trace (cfg : JsObject) (exts : List KitesExtension)
    (n : String)
    (h : ExtensionsManager.KEvent.invokeMain n ∈ ExtensionsManager.useManyTrace cfg exts) :
    ∃ e ∈ exts, e.name = n := by
  unfold ExtensionsManager.useManyTrace at h
  dsimp only at h
  rw [List.mem_append, List.mem_append, List.mem_append, List.mem_append] at h
  rcases h with ((((h | h) | h) | h) | h)
  · rw [List.mem_flatten] at h
    obtain ⟨l, hl, hmem⟩ := h
    rw [List.mem_map] at hl
    obtain ⟨r, _, rfl⟩ := hl
    obtain ⟨em, ei, est⟩ := r
    unfold ExtensionsManager.skipEvents at hmem
    rcases est with _ | _ | ⟨rej, msg⟩ <;> simp at hmem
  · rw [List.mem_filterMap] at h
    obtain ⟨r, hr, heq⟩ := h
    rw [List.mem_map] at hr
    obtain ⟨e, he, rfl⟩ := hr
    refine ⟨e, he, ?_⟩
    by_cases hi : (ExtensionsManager.activateOne cfg e).invoked
    · rw [if_pos hi] at heq
      have hinj : (ExtensionsManager.activateOne cfg e).merged.name = n := by
        injection heq with h1
        injection h1
      rw [← hinj, activateOne_merged_name]
    · rw [if_neg hi] at heq
      exact absurd heq (by simp)
  · rw [List.mem_filterMap] at h
    obtain ⟨r, _, heq⟩ := h
    obtain ⟨em, ei, est⟩ := r
    rcases est with _ | _ | ⟨rej, msg⟩
    · simp at heq
    · simp at heq
    · rcases rej <;> simp at heq
  · rw [List.mem_filterMap] at h
    obtain ⟨r, _, heq⟩ := h
    obtain ⟨em, ei, est⟩ := r
    rcases est with _ | _ | ⟨rej, msg⟩ <;> simp at heq
  · rw [List.mem_filterMap] at h
    obtain ⟨r, _, heq⟩ := h
    obtain ⟨em, ei, est⟩ := r
    rcases est with _ | _ | ⟨rej, msg⟩
    · simp at heq
    · simp at heq
    · rcases rej <;> simp at heq

/-- C5: with an allow-list in `options.extensions`, `init` retains
exactly the candidates whose name passes the allow-list membership test
(the rest are dropped without any event) and no dropped candidate is
ever activated: every entry-point invocation in the trace names a
retained candidate. -/
theorem init_allow_list_filter
    (sortFn : List KitesExtension → List KitesExtension)
    (discovered : List KitesExtension) (kitesOptions : JsObject)
    (m : ExtensionsManager) (allowed : List JsValue)
    (hperm : ∀ l, (sortFn l).Perm l)
    (hext : JsObject.get kitesOptions "extensions" = some (.varr allowed)) :
    (ExtensionsManager.init sortFn discovered kitesOptions m).availableExtensions =
      sortFn
        ((((if ExtensionsManager.readAutodiscover kitesOptions then discovered else []) ++
            m.usedExtensions)).filter
          (fun e => ExtensionsManager.jsIndexOfStr allowed e.name)) ∧
    ∀ n, ExtensionsManager.KEvent.invokeMain n ∈
        (ExtensionsManager.init sortFn discovered kitesOptions m).trace →
      ∃ e, e ∈ (((if ExtensionsManager.readAutodiscover kitesOptions then discovered
              else []) ++ m.usedExtensions)).filter
            (fun e => ExtensionsManager.jsIndexOfStr allowed e.name) ∧
        e.name = n := by
  constructor
  · unfold ExtensionsManager.init
    rw [hext]
  · intro n h
    unfold ExtensionsManager.init at h
    rw [hext] at h
    dsimp only at h
    rw [List.mem_append] at h
    rcases h with h | h
    · rcases had : ExtensionsManager.readAutodiscover kitesOptions <;>
        rw [had] at h <;> simp at h
    · obtain ⟨e, he, hn⟩ := invokeMain_name_of_mem_trace _ _ _ h
      exact ⟨e, (hperm _).mem_iff.mp he, hn⟩

/-- C5 witness: with candidates `{A, B, C}` and allow-list
`["A", "C"]`, only `A` and `C` are retained. -/
theorem init_allow_list_filter_witness :
    (ExtensionsManager.init id []
      [("discover", .vbool false), ("extensions", .varr [.vstr "A", .vstr "C"])]
      ⟨[], [extOkA, extOkB, extOkC]⟩).availableExtensions = [extOkA, extOkC] := by
  rw [(init_allow_list_filter id []
    [("discover", .vbool false), ("extensions", .varr [.vstr "A", .vstr "C"])]
    ⟨[], [extOkA, extOkB, extOkC]⟩ [.vstr "A", .vstr "C"]
    (fun l => List.Perm.refl l) rfl).1]
  rfl

/-- C3 counterexample: for the concrete disabled extension `D`, the
claim fails — no `extension:registered` notification is emitted for the
intentional skip, the trace holds only a debug log. -/
theorem disabled_skip_claim_false :
    ¬ ExtensionsManager.DisabledSkipClaim [] extDisabledD := by
  intro h
  have h2 := (h rfl).2.2
  have h3 : ExtensionsManager.useManyTrace [] [extDisabledD] =
      [.debug "Extension D is disabled, skipping"] := rfl
  rw [h3] at h2
  simp at h2

/-- C3 amended: an extension whose merged options set `enabled === false`
is skipped without error — its entry point is never invoked, its chain
resolves successfully, and the only observable event is a debug log; in
particular no `extension:registered` notification is emitted for the
skip. -/
theorem disabled_skip_amended (cfg : JsObject) (e : KitesExtension)
    (hdis : isStrictFalse
      (JsObject.get (ExtensionsManager.mergedOptions cfg e) "enabled") = true) :
    (ExtensionsManager.activateOne cfg e).invoked = false ∧
    (ExtensionsManager.activateOne cfg e).status = .skipped ∧
    ExtensionsManager.useManyResult cfg [e] = .ok () ∧
    ExtensionsManager.useManyTrace cfg [e] =
      [.debug ("Extension " ++ e.name ++ " is disabled, skipping")] := by
  have hrec : ExtensionsManager.activateOne cfg e =
      { merged := { e with options := ExtensionsManager.mergedOptions cfg e },
        invoked := false, status := .skipped } := by
    unfold ExtensionsManager.activateOne
    dsimp only
    rw [hdis]
    rfl
  refine ⟨by rw [hrec], by rw [hrec], ?_, ?_⟩
  · unfold ExtensionsManager.useManyResult
    rw [List.map_cons, List.map_nil, hrec]
    rfl
  · unfold ExtensionsManager.useManyTrace
    rw [List.map_cons, List.map_nil, hrec]
    rfl

/-- C3 amended witness: the disabled extension `D` is skipped with only
a debug log and a resolved chain. -/
theorem disabled_skip_amended_witness :
    (ExtensionsManager.activateOne [] extDisabledD).invoked = false ∧
    (ExtensionsManager.activateOne [] extDisabledD).status = .skipped ∧
    ExtensionsManager.useManyResult [] [extDisabledD] = .ok () ∧
    ExtensionsManager.useManyTrace [] [extDisabledD] =
      [.debug ("Extension " ++ "D" ++ " is disabled, skipping")] :=
  disabled_skip_amended [] extDisabledD rfl

/-- C1 counterexample: with the two enabled, succeeding extensions `A`
then `B`, the trace is `[invoke A, invoke B, registered A, registered B]`:
`B`'s entry point is invoked at position 1 while `A`'s activation only
settles at position 2, so activation is not strictly sequential. -/
theorem strictly_sequential_false :
    ¬ ExtensionsManager.StrictlySequential [] [extOkA, extOkB] := by
  intro h
  have h1 := h 0 1 (by decide) rfl
  rcases h1 with hs | ⟨j, hj, hget⟩
  · exact absurd hs (by decide)
  · have hj0 : j = 0 := by omega
    subst hj0
    exact absurd hget (by decide)

/-- C1 amended: entry points are invoked in exactly the order of the
processed list, but activation is concurrent rather than sequential:
the whole trace is phased — first the disabled-skip logs, then all
entry-point invocations, then the failure logs of synchronously
throwing chains, then all `extension:registered` emissions, then the
failure logs of invalid-shape chains — so every later entry point is
invoked before any earlier activation settles. -/
theorem useMany_invocations_ordered_concurrent (cfg : JsObject)
    (exts : List KitesExtension) :
    (ExtensionsManager.useManyTrace cfg exts).filterMap ExtensionsManager.invokeName? =
      (exts.map (ExtensionsManager.activateOne cfg)).filterMap
        (fun r => if r.invoked then some r.merged.name else none) ∧
    ∃ p1 p2 p3 p4 p5,
      ExtensionsManager.useManyTrace cfg exts = p1 ++ p2 ++ p3 ++ p4 ++ p5 ∧
      (∀ ev ∈ p1, ∃ s, ev = ExtensionsManager.KEvent.debug s) ∧
      (∀ ev ∈ p2, ∃ s, ev = ExtensionsManager.KEvent.invokeMain s) ∧
      (∀ ev ∈ p3, ∃ s, ev = ExtensionsManager.KEvent.errorLog s) ∧
      (∀ ev ∈ p4, ∃ s, ev = ExtensionsManager.KEvent.registered s) ∧
      (∀ ev ∈ p5, ∃ s, ev = ExtensionsManager.KEvent.errorLog s) := by
  constructor
  · unfold ExtensionsManager.useManyTrace
    dsimp only
    rw [List.filterMap_append, List.filterMap_append, List.filterMap_append,
      List.filterMap_append]
    have hA : List.filterMap ExtensionsManager.invokeName?
        (((exts.map (ExtensionsManager.activateOne cfg)).map
          ExtensionsManager.skipEvents).flatten) = [] := by
      rw [List.filterMap_eq_nil_iff]
      intro a ha
      rw [List.mem_flatten] at ha
      obtain ⟨l, hl, hmem⟩ := ha
      rw [List.mem_map] at hl
      obtain ⟨r, _, rfl⟩ := hl
      obtain ⟨em, ei, est⟩ := r
      unfold ExtensionsManager.skipEvents at hmem
      rcases est with _ | _ | ⟨rej, m⟩ <;> simp at hmem
      rw [hmem]
      rfl
    have hErr : List.filterMap ExtensionsManager.invokeName?
        ((exts.map (ExtensionsManager.activateOne cfg)).filterMap
          (fun r => match r.status with
            | ExtensionsManager.ChainStatus.failed (JsRejection.err _) m =>
                some (ExtensionsManager.KEvent.errorLog m)
            | _ => none)) = [] := by
      rw [List.filterMap_eq_nil_iff]
      intro a ha
      rw [List.mem_filterMap] at ha
      obtain ⟨r, _, heq⟩ := ha
      obtain ⟨em, ei, est⟩ := r
      rcases est with _ | _ | ⟨rej, m⟩
      · simp at heq
      · simp at heq
      · rcases rej <;> simp at heq
        rw [← heq]
        rfl
    have hReg : List.filterMap ExtensionsManager.invokeName?
        ((exts.map (ExtensionsManager.activateOne cfg)).filterMap
          (fun r => match r.status with
            | ExtensionsManager.ChainStatus.ok =>
                some (ExtensionsManager.KEvent.registered r.merged.name)
            | _ => none)) = [] := by
      rw [List.filterMap_eq_nil_iff]
      intro a ha
      rw [List.mem_filterMap] at ha
      obtain ⟨r, _, heq⟩ := ha
      obtain ⟨em, ei, est⟩ := r
      rcases est with _ | _ | ⟨rej, m⟩ <;> simp at heq
      rw [← heq]
      rfl
    have hRaw : List.filterMap ExtensionsManager.invokeName?
        ((exts.map (ExtensionsManager.activateOne cfg)).filterMap
          (fun r => match r.status with
            | ExtensionsManager.ChainStatus.failed (JsRejection.raw _) m =>
                some (ExtensionsManager.KEvent.errorLog m)
            | _ => none)) = [] := by
      rw [List.filterMap_eq_nil_iff]
      intro a ha
      rw [List.mem_filterMap] at ha
      obtain ⟨r, _, heq⟩ := ha
      obtain ⟨em, ei, est⟩ := r
      rcases est with _ | _ | ⟨rej, m⟩
      · simp at heq
      · simp at heq
      · rcases rej <;> simp at heq
        rw [← heq]
        rfl
    have hB : List.filterMap ExtensionsManager.invokeName?
        ((exts.map (ExtensionsManager.activateOne cfg)).filterMap
          (fun r => if r.invoked then
              some (ExtensionsManager.KEvent.invokeMain r.merged.name) else none)) =
        (exts.map (ExtensionsManager.activateOne cfg)).filterMap
          (fun r => if r.invoked then some r.merged.name else none) := by
      rw [List.filterMap_filterMap]
      congr 1
      funext r
      rcases hi : r.invoked
      · rfl
      · rfl
    rw [hA, hB, hErr, hReg, hRaw]
    simp
  · refine ⟨_, _, _, _, _, rfl, ?_, ?_, ?_, ?_, ?_⟩
    · intro ev hev
      rw [List.mem_flatten] at hev
      obtain ⟨l, hl, hmem⟩ := hev
      rw [List.mem_map] at hl
      obtain ⟨r, _, rfl⟩ := hl
      obtain ⟨em, ei, est⟩ := r
      unfold ExtensionsManager.skipEvents at hmem
      rcases est with _ | _ | ⟨rej, m⟩ <;> simp at hmem
      exact ⟨_, hmem⟩
    · intro ev hev
      rw [List.mem_filterMap] at hev
      obtain ⟨r, _, heq⟩ := hev
      simp at heq
      exact ⟨_, heq.2.symm⟩
    · intro ev hev
      rw [List.mem_filterMap] at hev
      obtain ⟨r, _, heq⟩ := hev
      obtain ⟨em, ei, est⟩ := r
      rcases est with _ | _ | ⟨rej, m⟩
      · simp at heq
      · simp at heq
      · rcases rej <;> simp at heq
        exact ⟨_, heq.symm⟩
    · intro ev hev
      rw [List.mem_filterMap] at hev
      obtain ⟨r, _, heq⟩ := hev
      obtain ⟨em, ei, est⟩ := r
      rcases est with _ | _ | ⟨rej, m⟩ <;> simp at heq
      exact ⟨_, heq.symm⟩
    · intro ev hev
      rw [List.mem_filterMap] at hev
      obtain ⟨r, _, heq⟩ := hev
      obtain ⟨em, ei, est⟩ := r
      rcases est with _ | _ | ⟨rej, m⟩
      · simp at heq
      · simp at heq
      · rcases rej <;> simp at heq
        exact ⟨_, heq.symm⟩

/-- C2 counterexample: with `B` (entry point throws) followed by `C`,
`C`'s entry point is still invoked — the remainder is not aborted — so
the fail-fast claim is false on this input. -/
theorem fail_fast_false :
    ¬ ExtensionsManager.FailFast [] [extThrowB, extOkC] := by
  intro h
  have h1 := (h 0 1 (by decide) (by decide) (by decide) (by decide)).1
  exact h1 (by decide)

/-- The first matching element decides `findSome?` when everything
before it yields `none`. -/
theorem findSome?_of_first {α β : Type _} (f : α → Option β) (l : List α)
    (n : Nat) (a : α) (b : β)
    (ha : l.get? n = some a) (hb : f a = some b)
    (hprev : ∀ m a', m < n → l.get? m = some a' → f a' = none) :
    l.findSome? f = some b := by
  induction l generalizing n with
  | nil => simp at ha
  | cons x xs ih =>
    cases n with
    | zero =>
      rw [List.get?_cons_zero] at ha
      injection ha with ha
      subst ha
      rw [List.findSome?_cons, hb]
    | succ k =>
      have hx : f x = none := hprev 0 x (Nat.succ_pos k) rfl
      rw [List.findSome?_cons, hx]
      rw [List.get?_cons_succ] at ha
      exact ih k ha (fun m a' hm hm' => hprev (m + 1) a' (Nat.succ_lt_succ hm) hm')

/-- C2 amended: a synchronously throwing activation does not stop the
others — every extension whose dispatch reaches a callable is still
invoked — but the promise returned by `useMany` rejects with the
earliest-settling rejection: the wrapped error of the first
synchronously throwing chain in list order (such a chain rejects at
tick 3, before the tick-5 rejection of any invalid-shape chain), and
for a named extension that message embeds the extension's name. -/
theorem useMany_failure_rejects_with_name (cfg : JsObject)
    (exts : List KitesExtension) (n : Nat) (b : KitesExtension)
    (s msg : String)
    (hget : exts.get? n = some b)
    (hfail : (ExtensionsManager.activateOne cfg b).status =
      .failed (.err s) msg)
    (hfirst : ∀ m e, m < n → exts.get? m = some e →
      ExtensionsManager.isSyncThrow (ExtensionsManager.activateOne cfg e) = false) :
    ExtensionsManager.useManyResult cfg exts = .error msg ∧
    (∀ e ∈ exts, (ExtensionsManager.activateOne cfg e).invoked = true →
      ExtensionsManager.KEvent.invokeMain e.name ∈
        ExtensionsManager.useManyTrace cfg exts) ∧
    (b.name ≠ "" →
      ∃ t, msg = "Error when loading extension " ++ b.name ++ t) := by
  refine ⟨?_, ?_, ?_⟩
  · have hfs : (exts.map (ExtensionsManager.activateOne cfg)).findSome?
        (fun r => match r.status with
          | ExtensionsManager.ChainStatus.failed (JsRejection.err _) m => some m
          | _ => none) = some msg := by
      apply findSome?_of_first _ _ n (ExtensionsManager.activateOne cfg b)
      · rw [List.get?_map, hget]
        rfl
      · rw [hfail]
      · intro m r' hm hm'
        rw [List.get?_map] at hm'
        cases he : exts.get? m with
        | none => rw [he] at hm'; simp at hm'
        | some e =>
          rw [he] at hm'
          injection hm' with hm'
          subst hm'
          have hns := hfirst m e hm he
          unfold ExtensionsManager.isSyncThrow at hns
          rcases hst : (ExtensionsManager.activateOne cfg e).status with _ | _ | ⟨rej, m1⟩
          · rfl
          · rfl
          · rcases rej with s1 | s1
            · rw [hst] at hns
              exact Bool.noConfusion hns
            · rfl
    unfold ExtensionsManager.useManyResult
    rw [hfs]
  · intro e he hi
    unfold ExtensionsManager.useManyTrace
    dsimp only
    rw [List.mem_append, List.mem_append, List.mem_append, List.mem_append]
    refine Or.inl (Or.inl (Or.inl (Or.inr ?_)))
    rw [List.mem_filterMap]
    refine ⟨ExtensionsManager.activateOne cfg e, List.mem_map_of_mem _ he, ?_⟩
    rw [if_pos hi, activateOne_merged_name]
  · intro hname
    unfold ExtensionsManager.activateOne at hfail
    dsimp only at hfail
    split at hfail
    · exact absurd hfail (by simp)
    · split at hfail
      · exact absurd hfail (by simp)
      · next inv r heq =>
        injection hfail with hr hmsg
        refine ⟨"\n" ++ stackText r, ?_⟩
        rw [← hmsg]
        unfold ExtensionsManager.loadErrorMsg
        have hbeq : (b.name == "") = false := by
          simp only [beq_eq_false_iff_ne, ne_eq]
          exact hname
        simp only [hbeq, Bool.false_eq_true, if_false]
        rw [String.append_assoc]

/-- C2 amended witness: with `B` throwing synchronously and `C`
scheduled after it, the promise returned by `useMany` rejects with the
wrapped error whose message names `B`. -/
theorem useMany_failure_rejects_with_name_witness :
    ExtensionsManager.useManyResult [] [extThrowB, extOkC] =
      .error "Error when loading extension B\nboom" :=
  (useMany_failure_rejects_with_name [] [extThrowB, extOkC] 0 extThrowB
    "boom" "Error when loading extension B\nboom" rfl rfl
    (fun m _ hm _ => absurd hm (Nat.not_lt_zero m))).1

/-- C6 counterexample: on a fresh instance, the `initialized`
notification is emitted while the lifecycle flag still reads `false` —
the flag is assigned only after the emission. -/
theorem initialized_notification_claim_false :
    ¬ InitializedNotificationClaim id [] (fun _ => false) "/approot" freshKitesState := by
  intro h
  have h1 := h.1 false (by decide)
  exact Bool.noConfusion h1

/-- C6 amended: whenever `init` succeeds, the `initialized` notification
is the last event — it follows every extension event and every deferred
initializer — and the returned state has `initialized = true`, but the
notification is emitted while the flag still holds its pre-assignment
value (`false` for a fresh instance): the assignment happens only after
the emission. -/
theorem init_emits_then_sets_flag
    (sortFn : List KitesExtension → List KitesExtension)
    (discovered : List KitesExtension) (fsExists : String → Bool)
    (defaultAppDirectory : String) (st st' : KitesState)
    (tr : List KitesInstance.InitEvent)
    (h : KitesInstance.init sortFn discovered fsExists defaultAppDirectory st =
      (tr, .ok st')) :
    st'.initialized = true ∧
    ∃ pre, tr = pre ++ [KitesInstance.InitEvent.emitInitialized st.initialized] := by
  simp only [KitesInstance.init] at h
  split at h
  · injection h with h1 h2
    exact absurd h2 (by simp)
  · split at h
    · injection h with h1 h2
      exact absurd h2 (by simp)
    · injection h with h1 h2
      injection h2 with h2
      constructor
      · rw [← h2]
      · rw [← h1]
        rw [show ∀ (l : List KitesInstance.InitEvent) a b,
              l ++ [a, b] = (l ++ [a]) ++ [b] from fun l a b => by simp]
        exact ⟨_, rfl⟩

/-- C6 amended witness: a fresh-instance run ends in the event list
`[.. , emitInitialized false]` with the final flag set to true. -/
theorem init_emits_then_sets_flag_witness :
    ({ options := [], extensionsManager := ⟨[], []⟩, initializeListeners := [],
       initialized := true } : KitesState).initialized = true ∧
    ∃ pre, [KitesInstance.InitEvent.logInfo "Initializing",
            .extEvent (.debug "Autodiscover is not enabled!"),
            .logInfo "kites initialized!",
            .emitInitialized false] =
      pre ++ [KitesInstance.InitEvent.emitInitialized freshKitesState.initialized] :=
  init_emits_then_sets_flag id [] (fun _ => false) "/approot" freshKitesState
    { options := [], extensionsManager := ⟨[], []⟩, initializeListeners := [],
      initialized := true }
    [KitesInstance.InitEvent.logInfo "Initializing",
     .extEvent (.debug "Autodiscover is not enabled!"),
     .logInfo "kites initialized!",
     .emitInitialized false]
    rfl
